import Mathlib

/-!
Shallow embedding of `rumqttc/src/mqttbytes/topic.rs`: MQTT topic-name
validation, topic-filter validation, and topic/filter matching.

Rust strings are modelled as `List Char` (a Rust `&str` is a sequence of
unicode scalar values); the Rust byte length `str::len` is modelled by
`utf8Len`, the sum of the UTF-8 sizes of the characters. Rust's
`str::split('/')` is modelled by `List.splitOn '/'`, which agrees with it
on every input (in particular both produce a single empty segment for the
empty string). The Rust expression `topic[..1]` slices the first BYTE of
the string and panics when that is not a character boundary, i.e. when the
first character has a UTF-8 size larger than one; `matches` therefore
returns an `Option Bool`, with `none` modelling that panic.
-/

namespace Rumqtt

/-- Converts a string literal to the character-list model used throughout. -/
def strL (s : String) : List Char := s.data

/-- The UTF-8 encoded byte length of a string, Rust's `str::len`. -/
def utf8Len (s : List Char) : Nat := (s.map Char.utf8Size).sum

/-- The error type of `valid_topic`, from `enum InvalidTopicError`. -/
inductive InvalidTopicError where
  | EmptyTopic
  | ContainsNull
  | ContainsWildCards
  | TooLong
deriving DecidableEq

/-- Rust `has_wildcards`: does the string contain a wildcard character? -/
def has_wildcards (s : List Char) : Bool :=
  s.contains '+' || s.contains '#'

/-- Rust `valid_topic`: validity of a concrete topic name, with the
checks in the source order: `+`, `#`, emptiness, the null character,
then the byte-length bound. -/
def valid_topic (topic : List Char) : Except InvalidTopicError Unit :=
  if topic.contains '+' then .error .ContainsWildCards
  else if topic.contains '#' then .error .ContainsWildCards
  else if topic.isEmpty then .error .EmptyTopic
  else if topic.contains (Char.ofNat 0) then .error .ContainsNull
  else if 65535 < utf8Len topic then .error .TooLong
  else .ok ()

/-- Rust `valid_filter`: validity of a topic filter. The filter is split
on `/`; `getLast?`/`dropLast` model `split_last` (the slice's last element
and the remaining prefix), the `any` models the early-return loop over the
non-last segments. -/
def valid_filter (filter : List Char) : Bool :=
  if filter.isEmpty then false
  else
    let hirerarchy := filter.splitOn '/'
    match hirerarchy.getLast?, hirerarchy.dropLast with
    | some last, remaining =>
      if remaining.any (fun entry =>
          entry.contains '#' || (decide (1 < entry.length) && entry.contains '+')) then
        false
      else if decide (last.length ≠ 1) && (last.contains '#' || last.contains '+') then
        false
      else true
    | none, _ => true

/-- The `for f in filters` loop of Rust `matches`, on the two segment
sequences: the remaining topic segments and the remaining filter segments.
The `fs = []` case is the code after the loop (`topics.next().is_some()`). -/
def matchLoop : List (List Char) → List (List Char) → Bool
  | ts, [] => ts.isEmpty
  | ts, f :: fs =>
    if f = ['#'] then true
    else
      match ts with
      | [] => false
      | t :: ts' =>
        if t = ['#'] then false
        else if f = ['+'] then matchLoop ts' fs
        else if f ≠ t then false
        else matchLoop ts' fs

/-- Rust `matches`: does `topic` match `filter`? The guard
`!topic.is_empty() && topic[..1].contains('$')` is modelled faithfully:
when the topic is non-empty and its first character is a single byte, the
slice `topic[..1]` is that character and the guard tests whether it is
`$`; when the first character is multi-byte, `topic[..1]` panics (byte
index 1 is not a character boundary), modelled as `none`. -/
def topicMatches (topic filter : List Char) : Option Bool :=
  match topic with
  | [] => some (matchLoop (topic.splitOn '/') (filter.splitOn '/'))
  | c :: _ =>
    if c.utf8Size = 1 then
      if c = '$' then some false
      else some (matchLoop (topic.splitOn '/') (filter.splitOn '/'))
    else none

/-- The name validator as the specification describes it: a single
wildcard test first, then emptiness, the null character, and the length
bound, each selecting its reason. -/
def NameValidatorSpec (t : List Char) : Except InvalidTopicError Unit :=
  if t.contains '+' || t.contains '#' then .error .ContainsWildCards
  else if t.isEmpty then .error .EmptyTopic
  else if t.contains (Char.ofNat 0) then .error .ContainsNull
  else if 65535 < utf8Len t then .error .TooLong
  else .ok ()

theorem utf8Len_replicate (n : Nat) (c : Char) :
    utf8Len (List.replicate n c) = n * c.utf8Size := by
  simp [utf8Len, List.map_replicate, List.sum_replicate, smul_eq_mul]

theorem contains_replicate_false (n : Nat) (c d : Char) (h : (d == c) = false) :
    (List.replicate n c).contains d = false := by
  induction n with
  | zero => rfl
  | succ n ih => rw [List.replicate_succ, List.contains_cons, h, Bool.false_or, ih]

theorem utf8Size_a : ('a').utf8Size = 1 := by decide

/-- Claim C1: `valid_topic` returns `Ok` exactly when the topic is
non-empty, has no `+`, no `#`, no null character, and a UTF-8 byte length
of at most 65535; otherwise the reason is the one selected by the fixed
order: `ContainsWildCards` for a wildcard, else `EmptyTopic`, else
`ContainsNull`, else `TooLong`; a name of exactly 65535 bytes is valid and
one of 65536 bytes is rejected with `TooLong`. -/
theorem claim_C1_valid_topic (t : List Char) :
    valid_topic t = NameValidatorSpec t
    ∧ (valid_topic t = .ok () ↔
        (t ≠ [] ∧ ¬ '+' ∈ t ∧ ¬ '#' ∈ t ∧ ¬ Char.ofNat 0 ∈ t ∧ utf8Len t ≤ 65535))
    ∧ valid_topic (List.replicate 65535 'a') = .ok ()
    ∧ valid_topic (List.replicate 65536 'a') = .error .TooLong := by
  refine ⟨?_, ?_, ?_, ?_⟩
  · by_cases h1 : '+' ∈ t <;> by_cases h2 : '#' ∈ t <;>
      simp [valid_topic, NameValidatorSpec, h1, h2]
  · simp only [valid_topic]
    split_ifs with h1 h2 h3 h4 h5 <;>
      simp_all [List.isEmpty_iff, Nat.not_lt]
  · have h1 := contains_replicate_false 65535 'a' '+' (by decide)
    have h2 := contains_replicate_false 65535 'a' '#' (by decide)
    have h3 := contains_replicate_false 65535 'a' (Char.ofNat 0) (by decide)
    have h4 : (List.replicate 65535 'a').isEmpty = false := by
      rw [List.isEmpty_replicate]; decide
    have h5 : utf8Len (List.replicate 65535 'a') = 65535 := by
      rw [utf8Len_replicate, utf8Size_a, Nat.mul_one]
    unfold valid_topic
    rw [h1, h2, h4, h3, h5]
    simp
  · have h1 := contains_replicate_false 65536 'a' '+' (by decide)
    have h2 := contains_replicate_false 65536 'a' '#' (by decide)
    have h3 := contains_replicate_false 65536 'a' (Char.ofNat 0) (by decide)
    have h4 : (List.replicate 65536 'a').isEmpty = false := by
      rw [List.isEmpty_replicate]; decide
    have h5 : utf8Len (List.replicate 65536 'a') = 65536 := by
      rw [utf8Len_replicate, utf8Size_a, Nat.mul_one]
    unfold valid_topic
    rw [h1, h2, h4, h3, h5]
    simp

/-- Claim C9: `has_wildcards s` is true iff `s` contains `+` or `#`, and
`valid_topic` reports `ContainsWildCards` exactly when `has_wildcards`
holds. -/
theorem claim_C9_wildcards (s : List Char) :
    (has_wildcards s = true ↔ ('+' ∈ s ∨ '#' ∈ s))
    ∧ (valid_topic s = .error .ContainsWildCards ↔ has_wildcards s = true) := by
  constructor
  · simp [has_wildcards]
  · by_cases h1 : '+' ∈ s <;> by_cases h2 : '#' ∈ s
    all_goals simp [valid_topic, has_wildcards, h1, h2]
    all_goals split_ifs <;> simp

theorem matchLoop_self (ss : List (List Char)) : matchLoop ss ss = true := by
  induction ss with
  | nil => rfl
  | cons s ss ih =>
    by_cases h1 : s = ['#']
    · simp [matchLoop, h1]
    · by_cases h2 : s = ['+'] <;> simp [matchLoop, h1, h2, ih]

/-- Claim C3: any subject whose first character is `$` is rejected by the
matcher no matter the pattern, and the exclusion fires only on a leading
`$`. -/
theorem claim_C3_dollar (subject pattern : List Char)
    (h : subject.head? = some '$') :
    topicMatches subject pattern = some false
    ∧ topicMatches (strL "sy$tem/metrics") (strL "sy$tem/+") = some true
    ∧ topicMatches (strL "$system/metrics") (strL "$system/+") = some false
    ∧ topicMatches (strL "$system/metrics") (strL "+/+") = some false := by
  refine ⟨?_, by decide, by decide, by decide⟩
  cases subject with
  | nil => simp at h
  | cons c cs =>
    simp only [List.head?, Option.some.injEq] at h
    subst h
    have hsz : ('$').utf8Size = 1 := by decide
    simp [topicMatches, hsz]

/-- Claim C3, witness: the general part applied to a concrete subject with
a leading `$`. -/
theorem claim_C3_witness :
    topicMatches (strL "$system/metrics") (strL "+/+") = some false :=
  (claim_C3_dollar (strL "$system/metrics") (strL "+/+") rfl).1

/-- Claim C4 (refuted): the matcher does not complete on every input; on a
subject whose first character is multi-byte the slice `topic[..1]` panics,
modelled here as `none`. -/
theorem claim_C4_panic : topicMatches (strL "é/a") (strL "#") = none := by
  decide

/-- Claim C5: a `#` pattern segment makes the walk return true
immediately, whatever and however many subject segments remain (including
none), with the concrete consequences at the public interface. -/
theorem claim_C5_hash_pattern :
    (∀ ts fs : List (List Char), matchLoop ts (['#'] :: fs) = true)
    ∧ topicMatches (strL "a/b/c") (strL "#") = some true
    ∧ topicMatches (strL "a/b/c") (strL "a/b/c/#") = some true
    ∧ topicMatches (strL "a/b/c/d") (strL "a/b/c/#") = some true := by
  refine ⟨fun ts fs => by cases ts <;> simp [matchLoop], by decide, by decide, by decide⟩

/-- Claim C6: the walk fails when the segment counts cannot be
reconciled: an exhausted subject against a pending non-`#` pattern
segment, or leftover subject segments after the pattern is consumed. -/
theorem claim_C6_segment_mismatch :
    (∀ (f : List Char) (fs : List (List Char)),
        matchLoop [] (f :: fs) = decide (f = ['#']))
    ∧ (∀ (t : List Char) (ts : List (List Char)), matchLoop (t :: ts) [] = false)
    ∧ topicMatches (strL "a/b/c") (strL "a/b/c/d") = some false
    ∧ topicMatches (strL "a/b") (strL "a/b/+") = some false
    ∧ topicMatches (strL "a/b/c/d") (strL "a/b/c") = some false := by
  refine ⟨?_, ?_, by decide, by decide, by decide⟩
  · intro f fs
    by_cases h : f = ['#'] <;> simp [matchLoop, h]
  · intro t ts
    simp [matchLoop]

/-- Claim C7: a `#` subject segment is matched only by a `#` pattern
segment, never absorbed by `+` or a literal, making subsumption between
filters asymmetric. -/
theorem claim_C7_hash_subject :
    (∀ (ts : List (List Char)) (f : List Char) (fs : List (List Char)),
        matchLoop (['#'] :: ts) (f :: fs) = decide (f = ['#']))
    ∧ topicMatches (strL "a/b/+") (strL "a/b/#") = some true
    ∧ topicMatches (strL "a/b/#") (strL "a/b/+") = some false
    ∧ topicMatches (strL "a/+/c/d") (strL "a/+/+/d") = some true
    ∧ topicMatches (strL "a/+/+/d") (strL "a/+/c/d") = some false := by
  refine ⟨?_, by decide, by decide, by decide, by decide⟩
  intro ts f fs
  by_cases h : f = ['#'] <;> simp [matchLoop, h]

/-- Claim C10: the matcher is reflexive on every string that is empty or
begins with a single-byte character other than `$`, wildcard segments
included. -/
theorem claim_C10_matches_refl (t : List Char)
    (h : t = [] ∨ ∃ c cs, t = c :: cs ∧ c.utf8Size = 1 ∧ c ≠ '$') :
    topicMatches t t = some true := by
  rcases h with h | ⟨c, cs, rfl, h1, h2⟩
  · subst h
    decide
  · simp [topicMatches, h1, h2, matchLoop_self]

/-- Claim C10, witness: reflexivity at a wildcard-bearing filter and at
the empty string. -/
theorem claim_C10_witness :
    topicMatches (strL "a/+/#") (strL "a/+/#") = some true
    ∧ topicMatches [] [] = some true :=
  ⟨claim_C10_matches_refl (strL "a/+/#")
      (Or.inr ⟨'a', strL "/+/#", rfl, by decide, by decide⟩),
    claim_C10_matches_refl [] (Or.inl rfl)⟩

/-- Claim C2: `valid_filter` accepts exactly the non-empty filters in
which no non-last segment contains `#`, no non-last segment of length
greater than one contains `+`, and the last segment has length one or
contains neither wildcard, with the listed concrete inputs. -/
theorem claim_C2_valid_filter (f : List Char) :
    (valid_filter f = true ↔
      (f ≠ []
       ∧ (∀ e ∈ (f.splitOn '/').dropLast,
            ¬ '#' ∈ e ∧ ¬ (1 < e.length ∧ '+' ∈ e))
       ∧ (∀ l, (f.splitOn '/').getLast? = some l →
            l.length = 1 ∨ (¬ '#' ∈ l ∧ ¬ '+' ∈ l))))
    ∧ valid_filter (strL "#") = true
    ∧ valid_filter (strL "+") = true
    ∧ valid_filter (strL "cor/+/rect/+") = true
    ∧ valid_filter (strL "correct/filter/#") = true
    ∧ valid_filter [] = false
    ∧ valid_filter (strL "wrong/#/filter") = false
    ∧ valid_filter (strL "wrong/wr#ng/filter") = false
    ∧ valid_filter (strL "wrong/filter#") = false
    ∧ valid_filter (strL "wr/o+/ng") = false
    ∧ valid_filter (strL "wr/+o+/ng") = false
    ∧ valid_filter (strL "wron/+g") = false := by
  refine ⟨?_, by decide, by decide, by decide, by decide, by decide, by decide,
    by decide, by decide, by decide, by decide, by decide⟩
  by_cases hf : f = []
  · subst hf
    simp [valid_filter]
  · have hemp : f.isEmpty = false := by simp [hf]
    cases hl : (f.splitOn '/').getLast? with
    | none =>
      have hnil : f.splitOn '/' = [] := List.getLast?_eq_none_iff.mp hl
      simp [valid_filter, hemp, hl, hf, hnil]
    | some last =>
      simp [valid_filter, hemp, hl, hf, and_assoc]

theorem splitOn_replicate_a (n : Nat) :
    (List.replicate n 'a').splitOn '/' = [List.replicate n 'a'] := by
  refine List.splitOnP_eq_single _ _ ?_
  intro x hx
  rw [List.mem_replicate] at hx
  simp [hx.2]

theorem valid_filter_replicate_a (n : Nat) :
    valid_filter (List.replicate (n + 1) 'a') = true := by
  have hc1 := contains_replicate_false (n + 1) 'a' '#' (by decide)
  have hc2 := contains_replicate_false (n + 1) 'a' '+' (by decide)
  simp [valid_filter, splitOn_replicate_a, hc1, hc2]

/-- Claim C8, counterexample: a single-segment filter of 65536 bytes is
accepted by `valid_filter`, although the claim says any filter longer
than 65535 bytes is rejected. -/
theorem claim_C8_counterexample :
    utf8Len (List.replicate 65536 'a') = 65536
    ∧ valid_filter (List.replicate 65536 'a') = true := by
  constructor
  · rw [utf8Len_replicate, utf8Size_a, Nat.mul_one]
  · exact valid_filter_replicate_a 65535

/-- Claim C8 as amended: `valid_filter` performs no length check at all;
it accepts single-segment filters of every positive length, in particular
both the 65535-byte and the 65536-byte filter of `a` characters. -/
theorem claim_C8_amended (n : Nat) :
    valid_filter (List.replicate (n + 1) 'a') = true
    ∧ valid_filter (List.replicate 65535 'a') = true
    ∧ valid_filter (List.replicate 65536 'a') = true :=
  ⟨valid_filter_replicate_a n, valid_filter_replicate_a 65534,
    valid_filter_replicate_a 65535⟩

end Rumqtt
